import Mathlib

/-!
# Verification of the metazerse metadata-resolution pipeline

Shallow embedding of `src/offchain/concurrency.py` and
`src/offchain/metadata/pipelines/metadata_pipeline.py`.

Conventions of the embedding:

* A Python call that may raise is modelled as `Except Exn _`:
  `Except.error e` is a *thrown, uncaught* exception propagating to the
  caller, while `Except.ok v` is a normal return.  In particular an
  outcome value `Except.ok (Outcome.error _)` is a *returned*
  `MetadataProcessingError`, which is very different from a thrown
  `Except.error _`.
* The external collaborators (fetcher, parsers, selector function) are
  modelled as opaque function records, since their implementations are
  out of the excerpted core; the pipeline code only calls them.
* The per-call invocation of collaborators is additionally recorded in a
  trace (`Ev` events) by the `...T` variants of the pipeline functions,
  so that invocation-count properties (fetch exactly once, short-circuit,
  exhaustive candidates) can be stated.  The first component of a `...T`
  function is exactly the result the untraced source computes.
* Thread scheduling is not modelled: the worker pool of
  `parallelize_with_threads` submits one independent closure per item and
  collects `f.result()` in submission order, so with pure per-item
  functions its observable value is the sequential first-error map.
-/

set_option autoImplicit false

deriving instance DecidableEq for Except

namespace Offchain

universe u v

/-- Exceptions.  `err msg` models a generic Python `Exception(msg)` raised by a
collaborator or built with a message literal; the two `valueError...`
constructors model the `ValueError`s raised by `ThreadPoolExecutor` when
`max_workers <= 0` and by `range` when its step is zero; `indexError` models
an out-of-range list subscript. -/
inductive Exn where
  | err (msg : String)
  | valueErrorMaxWorkers
  | valueErrorRangeStep
  | indexError
deriving DecidableEq

/-- Modelled from the spec: a Token is the immutable identity of an asset
(collection/contract identifier, token identifier, pointer URI); the model
classes are outside the excerpted core. -/
structure Token where
  collection_address : String
  token_id : Nat
  uri : String
deriving DecidableEq

/-- Modelled from the spec: RawContent is the transient value returned by the
content retriever — byte payload, declared MIME type, byte size. -/
structure RawContent where
  content : String
  mime_type : String
  size : Nat
deriving DecidableEq

/-- Modelled from the spec: the normalized structured record produced by a
successful interpreter; its fields are opaque to the pipeline core. -/
structure Metadata where
  token : Token
  name : String
deriving DecidableEq

/-- Modelled from the spec: a classified failure record referencing the
originating token and the causing fault. -/
structure MetadataProcessingError where
  token : Token
  cause : Exn
deriving DecidableEq

/-- `MetadataProcessingError.from_token_and_error(token=token, e=e)`. -/
def MetadataProcessingError.from_token_and_error (token : Token) (e : Exn) :
    MetadataProcessingError :=
  { token := token, cause := e }

/-- The per-token outcome: `Union[Metadata, MetadataProcessingError]`. -/
inductive Outcome where
  | metadata (m : Metadata)
  | error (e : MetadataProcessingError)
deriving DecidableEq

/-- Modelled from the spec: an interpreter declares applicability
(`should_parse_token`, a pure predicate) and attempts a parse
(`parse_metadata`, which returns a Metadata or raises). -/
structure Parser where
  should_parse_token : Token → RawContent → Bool
  parse_metadata : Token → RawContent → Except Exn Metadata

/-- Modelled from the spec: the content retriever; `fetch_content uri` returns
raw content or raises a retrieval error. -/
structure Fetcher where
  fetch_content : String → Except Exn RawContent

/-- A caller-supplied result-selection policy (`metadata_selector_fn`). -/
def SelectorFn : Type := List Outcome → Except Exn Outcome

/-! ## `src/offchain/concurrency.py` -/

/-- `MAX_PROCS = (multiprocessing.cpu_count() * 2) + 1`; the machine's core
count is a parameter of the model. -/
def MAX_PROCS (cores : Nat) : Nat := cores * 2 + 1

/-- Sequential effectful map over a list in the `Except` "monad": the value of
a Python loop that calls `g` on each element in order, propagating the first
raised exception.  Used as the observable semantics of both the sequential
`list(map(...))` and of collecting `f.result()` of independently submitted
pure closures in submission order. -/
def seqMap {α : Type u} {β : Type v} (g : α → Except Exn β) :
    List α → Except Exn (List β)
  | [] => .ok []
  | a :: rest =>
    match g a with
    | .error e => .error e
    | .ok b =>
      match seqMap g rest with
      | .error e => .error e
      | .ok bs => .ok (b :: bs)

/-- `parallelize_with_threads(*args)`: builds a pool with
`max_workers = min(n_tasks, MAX_PROCS)` — which raises
`ValueError` when that is zero, i.e. exactly when `args` is empty — submits
every zero-argument callable, and collects `f.result()` in submission order
(the first raised exception propagates). -/
def parallelize_with_threads {β : Type v} (cores : Nat)
    (fns : List (Unit → Except Exn β)) : Except Exn (List β) :=
  if min fns.length (MAX_PROCS cores) = 0 then .error Exn.valueErrorMaxWorkers
  else seqMap (fun f => f ()) fns

/-- `parmap(fn, args)`: maps `lambda i: lambda: fn(i)` over `args` — each
closure binds its own argument `i` by value — and hands the closures to
`parallelize_with_threads`. -/
def parmap {α : Type u} {β : Type v} (cores : Nat) (fn : α → Except Exn β)
    (args : List α) : Except Exn (List β) :=
  parallelize_with_threads cores (args.map (fun i => (fun _ => fn i)))

/-- The index list of Python `range(0, stop, step)` for a positive `step`:
`[0, step, 2*step, ...]`, of length `ceil(stop/step)`. -/
def posRange (stop step : Nat) : List Nat :=
  (List.range ((stop + step - 1) / step)).map (· * step)

/-- The contiguous slices `args[i : i + step]` for `i in range(0, len(args), step)`
with a positive `step`. -/
def pyBatches {α : Type u} (args : List α) (step : Nat) : List (List α) :=
  (posRange args.length step).map (fun i => (args.drop i).take step)

/-- The batches visited by `for i in range(0, len(args), batch_size)` for an
arbitrary integer `batch_size`: a negative step makes `range(0, n, step)`
empty (`n ≥ 0`), so no batch is visited at all.  The `batch_size = 0` case
raises before this point and is handled in `batched_parmap`. -/
def pyBatchesI {α : Type u} (args : List α) (batch_size : Int) : List (List α) :=
  if batch_size < 0 then [] else pyBatches args batch_size.toNat

/-- `results.extend(res)` accumulation over the per-batch results: an error in
some batch propagates, otherwise the per-batch result lists are concatenated
in order. -/
def joinResults {β : Type v} : Except Exn (List (List β)) → Except Exn (List β)
  | .error e => .error e
  | .ok rss => .ok rss.flatten

/-- The declared default of the `batch_size` parameter of `batched_parmap`
(`batch_size: int = 10`). -/
def batched_parmap_default_batch_size : Int := 10

/-- `batched_parmap(fn, args, batch_size)`: iterates
`for i in range(0, len(args), batch_size)` (raising `ValueError` when
`batch_size` is zero), calls `parmap` on each slice `args[i : i + batch_size]`
sequentially, and extends the result list with each batch's results. -/
def batched_parmap {α : Type u} {β : Type v} (cores : Nat)
    (fn : α → Except Exn β) (args : List α) (batch_size : Int) :
    Except Exn (List β) :=
  if batch_size = 0 then .error Exn.valueErrorRangeStep
  else joinResults (seqMap (fun batch => parmap cores fn batch) (pyBatchesI args batch_size))

/-- `batched_parmap` applied with its declared default `batch_size`. -/
def batched_parmapD {α : Type u} {β : Type v} (cores : Nat)
    (fn : α → Except Exn β) (args : List α) : Except Exn (List β) :=
  batched_parmap cores fn args batched_parmap_default_batch_size

/-! ## `src/offchain/metadata/pipelines/metadata_pipeline.py` -/

/-- Trace events recording the collaborator invocations made while resolving
one token: `fetchEv uri` is one call to `fetcher.fetch_content(uri)`;
`parseEv idx raw` is one call to `parser.parse_metadata(token, raw)` on the
parser at position `idx` of the configured chain. -/
inductive Ev where
  | fetchEv (uri : String)
  | parseEv (idx : Nat) (raw : RawContent)
deriving DecidableEq

/-- True exactly on `fetchEv` events. -/
def isFetchEv : Ev → Bool
  | .fetchEv _ => true
  | _ => false

/-- True exactly on `parseEv` events. -/
def isParseEv : Ev → Bool
  | .parseEv _ _ => true
  | _ => false

/-- The `for parser in self.parsers:` loop of `fetch_token_metadata`, with the
invocation trace.  `selSome` is `metadata_selector_fn is not None`; `acc` is
the `possible_metadatas` accumulator; `idx` is the chain position of the first
parser of the remaining list (used only for the trace).  `Sum.inl out` is the
early `return metadata_or_error` taken when a parse succeeds with no selector
configured; `Sum.inr acc` is normal loop exit with the final accumulator.

Body, per parser: skip when `should_parse_token` is false; otherwise call
`parse_metadata` — on success either return it at once (no selector) or append
it and continue (selector configured); on a raised exception append
`MetadataProcessingError.from_token_and_error(token, e)` and continue. -/
def interpretLoopT (tok : Token) (raw : RawContent) (selSome : Bool) :
    List Parser → List Outcome → Nat → (Sum Outcome (List Outcome)) × List Ev
  | [], acc, _ => (.inr acc, [])
  | p :: rest, acc, idx =>
    if p.should_parse_token tok raw then
      match p.parse_metadata tok raw with
      | .ok m =>
        if selSome then
          let r := interpretLoopT tok raw selSome rest (acc ++ [Outcome.metadata m]) (idx + 1)
          (r.1, Ev.parseEv idx raw :: r.2)
        else
          (.inl (Outcome.metadata m), [Ev.parseEv idx raw])
      | .error e =>
        let r := interpretLoopT tok raw selSome rest
          (acc ++ [Outcome.error (MetadataProcessingError.from_token_and_error tok e)]) (idx + 1)
        (r.1, Ev.parseEv idx raw :: r.2)
    else
      interpretLoopT tok raw selSome rest acc (idx + 1)

/-- `MetadataPipeline.fetch_token_metadata(token, metadata_selector_fn)`, with
the invocation trace.  Mirrors the source line by line:
`raw_data = self.fetcher.fetch_content(token.uri)` is *not* guarded by any
`try`, so a retrieval fault is a thrown exception (`Except.error`) and the
parser loop is never entered; on fetch success the parser loop runs; if it
produced no candidate, a `MetadataProcessingError` built from
`Exception("No parsers found.")` is appended; with a selector configured the
selector's value on `possible_metadatas` is returned, otherwise
`possible_metadatas[0]` (an `IndexError` on the empty list, unreachable
here because the default was just appended). -/
def fetch_token_metadataT (fetcher : Fetcher) (parsers : List Parser)
    (metadata_selector_fn : Option SelectorFn) (token : Token) :
    Except Exn Outcome × List Ev :=
  match fetcher.fetch_content token.uri with
  | .error e => (.error e, [Ev.fetchEv token.uri])
  | .ok raw_data =>
    let r := interpretLoopT token raw_data metadata_selector_fn.isSome parsers [] 0
    match r.1 with
    | .inl out => (.ok out, Ev.fetchEv token.uri :: r.2)
    | .inr possible_metadatas =>
      let possible_metadatas :=
        if possible_metadatas.length = 0 then
          [Outcome.error (MetadataProcessingError.from_token_and_error token
            (Exn.err "No parsers found."))]
        else possible_metadatas
      match metadata_selector_fn with
      | some sel => (sel possible_metadatas, Ev.fetchEv token.uri :: r.2)
      | none =>
        match possible_metadatas with
        | [] => (.error Exn.indexError, Ev.fetchEv token.uri :: r.2)
        | x :: _ => (.ok x, Ev.fetchEv token.uri :: r.2)

/-- The result of `fetch_token_metadata` (first component of the traced
variant). -/
def fetch_token_metadata (fetcher : Fetcher) (parsers : List Parser)
    (metadata_selector_fn : Option SelectorFn) (token : Token) :
    Except Exn Outcome :=
  (fetch_token_metadataT fetcher parsers metadata_selector_fn token).1

/-- `MetadataPipeline.run(tokens, parallelize, select_metadata_fn)`:
empty input returns `[]` at once; otherwise either
`batched_parmap(lambda t: self.fetch_token_metadata(t, select_metadata_fn), tokens, 15)`
or the sequential `list(map(lambda t: ..., tokens))`. -/
def run (cores : Nat) (fetcher : Fetcher) (parsers : List Parser)
    (tokens : List Token) (parallelize : Bool)
    (select_metadata_fn : Option SelectorFn) : Except Exn (List Outcome) :=
  if tokens.length = 0 then .ok []
  else if parallelize then
    batched_parmap cores
      (fun t => fetch_token_metadata fetcher parsers select_metadata_fn t) tokens 15
  else
    seqMap (fun t => fetch_token_metadata fetcher parsers select_metadata_fn t) tokens

/-! ## Derived views of the interpreter chain -/

/-- The candidate an applicable parser contributes: its parsed Metadata on
success, the wrapped `MetadataProcessingError` on a raised parse fault. -/
def candidateOf (tok : Token) (raw : RawContent) (p : Parser) : Outcome :=
  match p.parse_metadata tok raw with
  | .ok m => Outcome.metadata m
  | .error e => Outcome.error (MetadataProcessingError.from_token_and_error tok e)

/-- The candidates of every applicable parser of the chain, in chain order. -/
def candidatesOf (parsers : List Parser) (tok : Token) (raw : RawContent) :
    List Outcome :=
  (parsers.filter (fun p => p.should_parse_token tok raw)).map (candidateOf tok raw)

/-- Chain positions (counted from `start`) of the applicable parsers. -/
def applicableIdxsFrom (tok : Token) (raw : RawContent) :
    List Parser → Nat → List Nat
  | [], _ => []
  | p :: rest, i =>
    if p.should_parse_token tok raw then i :: applicableIdxsFrom tok raw rest (i + 1)
    else applicableIdxsFrom tok raw rest (i + 1)

/-- Chain positions (from 0) of the applicable parsers. -/
def applicableIdxs (parsers : List Parser) (tok : Token) (raw : RawContent) :
    List Nat :=
  applicableIdxsFrom tok raw parsers 0

/-! ## Concrete fixtures used by witnesses and counterexamples -/

/-- A sample token. -/
def tokA : Token := { collection_address := "0xabc", token_id := 1, uri := "ipfs://a" }

/-- A second sample token. -/
def tokB : Token := { collection_address := "0xabc", token_id := 2, uri := "https://b" }

/-- Sample raw content. -/
def rawA : RawContent := { content := "{}", mime_type := "application/json", size := 2 }

/-- A fetcher whose every retrieval succeeds with `rawA`. -/
def goodFetcher : Fetcher := { fetch_content := fun _ => .ok rawA }

/-- A fetcher whose every retrieval raises (an unreachable URI). -/
def badFetcher : Fetcher := { fetch_content := fun _ => .error (Exn.err "connection refused") }

/-- Sample metadata records. -/
def mA : Metadata := { token := tokA, name := "A" }

/-- A second sample metadata record. -/
def mB : Metadata := { token := tokA, name := "B" }

/-- A parser that is always applicable and parses successfully to `mA`. -/
def parserOkA : Parser :=
  { should_parse_token := fun _ _ => true, parse_metadata := fun _ _ => .ok mA }

/-- A parser that is always applicable and parses successfully to `mB`. -/
def parserOkB : Parser :=
  { should_parse_token := fun _ _ => true, parse_metadata := fun _ _ => .ok mB }

/-- A parser that is always applicable and always raises while parsing. -/
def parserFails : Parser :=
  { should_parse_token := fun _ _ => true, parse_metadata := fun _ _ => .error (Exn.err "bad json") }

/-- A parser that never claims applicability. -/
def parserNever : Parser :=
  { should_parse_token := fun _ _ => false, parse_metadata := fun _ _ => .ok mB }

/-- A concrete selection policy: picks the last candidate (head as fallback on
the empty list, which the pipeline never passes). -/
def selLast : SelectorFn := fun cands =>
  match cands.getLast? with
  | some o => .ok o
  | none => .error (Exn.err "empty candidates")

/-! ## Lemmas about the execution engine -/

theorem seqMap_append {α : Type u} {β : Type v} (g : α → Except Exn β)
    (l1 l2 : List α) :
    seqMap g (l1 ++ l2)
      = match seqMap g l1 with
        | .error e => .error e
        | .ok b1 =>
          match seqMap g l2 with
          | .error e => .error e
          | .ok b2 => .ok (b1 ++ b2) := by
  induction l1 with
  | nil =>
    simp only [List.nil_append, seqMap]
    cases seqMap g l2 <;> rfl
  | cons a rest ih =>
    simp only [List.cons_append, seqMap, List.append_eq]
    cases g a with
    | error e => rfl
    | ok b =>
      rw [ih]
      cases seqMap g rest with
      | error e => rfl
      | ok b1 =>
        cases seqMap g l2 with
        | error e => rfl
        | ok b2 => rfl

theorem seqMap_pure {α : Type u} {β : Type v} (g : α → β) (l : List α) :
    seqMap (fun a => Except.ok (g a)) l = .ok (l.map g) := by
  induction l with
  | nil => rfl
  | cons a rest ih => simp only [seqMap, ih, List.map]

theorem seqMap_ok_length {α : Type u} {β : Type v} (g : α → Except Exn β) :
    ∀ (l : List α) (outs : List β), seqMap g l = .ok outs → outs.length = l.length := by
  intro l
  induction l with
  | nil => intro outs h; cases h; rfl
  | cons a rest ih =>
    intro outs h
    simp only [seqMap] at h
    cases hga : g a with
    | error e => rw [hga] at h; cases h
    | ok b =>
      rw [hga] at h
      cases hrest : seqMap g rest with
      | error e => rw [hrest] at h; cases h
      | ok bs => rw [hrest] at h; cases h; simp [ih bs hrest]

theorem seqMap_ok_get {α : Type u} {β : Type v} (g : α → Except Exn β) :
    ∀ (l : List α) (outs : List β), seqMap g l = .ok outs →
      ∀ (i : Nat) (h1 : i < l.length) (h2 : i < outs.length),
        g (l.get ⟨i, h1⟩) = .ok (outs.get ⟨i, h2⟩) := by
  intro l
  induction l with
  | nil => intro outs h i h1; exact absurd h1 (by simp)
  | cons a rest ih =>
    intro outs h i h1 h2
    simp only [seqMap] at h
    cases hga : g a with
    | error e => rw [hga] at h; cases h
    | ok b =>
      rw [hga] at h
      cases hrest : seqMap g rest with
      | error e => rw [hrest] at h; cases h
      | ok bs =>
        rw [hrest] at h
        cases h
        match i with
        | 0 => simpa using hga
        | Nat.succ j => exact ih bs hrest j (by simpa using h1) (by simpa using h2)

theorem seqMap_thunks {α : Type u} {β : Type v} (fn : α → Except Exn β)
    (args : List α) :
    seqMap (fun f => f ()) (args.map (fun i => (fun _ => fn i))) = seqMap fn args := by
  induction args with
  | nil => rfl
  | cons a rest ih => simp only [List.map, seqMap, ih]

/-- On a non-empty argument list the worker count is positive, so `parmap`
computes the in-order map of `fn` (first raised exception propagating). -/
theorem parmap_eq_seqMap {α : Type u} {β : Type v} (cores : Nat)
    (fn : α → Except Exn β) (args : List α) (h : args ≠ []) :
    parmap cores fn args = seqMap fn args := by
  unfold parmap parallelize_with_threads
  rw [if_neg, seqMap_thunks]
  simp only [List.length_map, Nat.min_eq_zero_iff, MAX_PROCS]
  rintro (h0 | h0)
  · exact h (List.eq_nil_of_length_eq_zero h0)
  · omega

theorem posRange_step {n bs : Nat} (hbs : 1 ≤ bs) (hn : 1 ≤ n) :
    posRange n bs = 0 :: (posRange (n - bs) bs).map (· + bs) := by
  unfold posRange
  have hc : (n + bs - 1) / bs = (n - 1) / bs + 1 := by
    rw [show n + bs - 1 = (n - 1) + bs by omega, Nat.add_div_right _ (by omega)]
  have hc' : ((n - bs) + bs - 1) / bs = (n - 1) / bs := by
    rcases Nat.le_total n bs with hle | hle
    · rw [show (n - bs) + bs - 1 = bs - 1 by omega,
        Nat.div_eq_of_lt (by omega), Nat.div_eq_of_lt (by omega)]
    · rw [show (n - bs) + bs - 1 = n - 1 by omega]
  rw [hc, hc', List.range_succ_eq_map]
  simp only [List.map_cons, Nat.zero_mul, List.map_map]
  congr 1
  apply List.map_congr_left
  intro i _
  simp only [Function.comp_apply, Nat.succ_mul]

theorem pyBatches_step {α : Type u} {bs : Nat} (args : List α)
    (hbs : 1 ≤ bs) (h : args ≠ []) :
    pyBatches args bs = args.take bs :: pyBatches (args.drop bs) bs := by
  unfold pyBatches
  have hn : 1 ≤ args.length := List.length_pos.mpr h
  rw [posRange_step hbs hn]
  simp only [List.map_cons, List.drop_zero, List.map_map, List.length_drop]
  congr 1
  apply List.map_congr_left
  intro i _
  simp only [Function.comp_apply, List.drop_drop, Nat.add_comm]

theorem pyBatches_nil {α : Type u} (bs : Nat) : pyBatches ([] : List α) bs = [] := by
  have h0 : (bs - 1) / bs = 0 := by
    rcases Nat.eq_zero_or_pos bs with h | h
    · simp [h]
    · exact Nat.div_eq_of_lt (by omega)
  simp [pyBatches, posRange, h0]

/-- For a positive batch size the batches concatenate back to the input list
(the partition is contiguous, complete and in order). -/
theorem pyBatches_flatten {α : Type u} (bs : Nat) (hbs : 1 ≤ bs) :
    ∀ (n : Nat) (args : List α), args.length ≤ n →
      (pyBatches args bs).flatten = args := by
  intro n
  induction n with
  | zero =>
    intro args hlen
    have : args = [] := List.eq_nil_of_length_eq_zero (Nat.le_zero.mp hlen)
    subst this
    rw [pyBatches_nil]
    rfl
  | succ n ih =>
    intro args hlen
    by_cases hne : args = []
    · subst hne
      rw [pyBatches_nil]
      rfl
    · rw [pyBatches_step args hbs hne]
      simp only [List.flatten_cons]
      rw [ih (args.drop bs) (by simp only [List.length_drop]; omega)]
      exact List.take_append_drop bs args

/-- Core of `batched_parmap` for a positive batch size: walking the batches
sequentially, running `parmap` on each and concatenating is the in-order
first-error map of `fn` over the whole list. -/
theorem batchedCore_eq_seqMap {α : Type u} {β : Type v} (cores : Nat)
    (fn : α → Except Exn β) (bs : Nat) (hbs : 1 ≤ bs) :
    ∀ (n : Nat) (args : List α), args.length ≤ n →
      joinResults (seqMap (fun batch => parmap cores fn batch) (pyBatches args bs))
        = seqMap fn args := by
  intro n
  induction n with
  | zero =>
    intro args hlen
    have : args = [] := List.eq_nil_of_length_eq_zero (Nat.le_zero.mp hlen)
    subst this
    rw [pyBatches_nil]
    rfl
  | succ n ih =>
    intro args hlen
    by_cases hne : args = []
    · subst hne
      rw [pyBatches_nil]
      rfl
    · rw [pyBatches_step args hbs hne]
      have htake : args.take bs ≠ [] := by
        obtain ⟨a, rest, rfl⟩ := List.exists_cons_of_ne_nil hne
        cases bs with
        | zero => omega
        | succ m => simp [List.take]
      have hdroplen : (args.drop bs).length ≤ n := by
        simp only [List.length_drop]
        omega
      have hsplit := seqMap_append fn (args.take bs) (args.drop bs)
      rw [List.take_append_drop] at hsplit
      rw [hsplit]
      simp only [seqMap, parmap_eq_seqMap cores fn (args.take bs) htake]
      cases h1 : seqMap fn (args.take bs) with
      | error e => rfl
      | ok b1 =>
        cases h2 : seqMap (fun batch => parmap cores fn batch) (pyBatches (args.drop bs) bs) with
        | error e =>
          have hrec := ih (args.drop bs) hdroplen
          rw [h2] at hrec
          rw [← hrec]
          rfl
        | ok rss =>
          have hrec := ih (args.drop bs) hdroplen
          rw [h2] at hrec
          simp only [joinResults] at hrec
          rw [← hrec]
          simp [joinResults]

/-- `batched_parmap` with a positive batch size is the in-order first-error
map of `fn`. -/
theorem batched_parmap_eq_seqMap {α : Type u} {β : Type v} (cores : Nat)
    (fn : α → Except Exn β) (args : List α) (bs : Int) (hbs : 1 ≤ bs) :
    batched_parmap cores fn args bs = seqMap fn args := by
  unfold batched_parmap pyBatchesI
  rw [if_neg (by omega), if_neg (by omega)]
  exact batchedCore_eq_seqMap cores fn bs.toNat (by omega) args.length args le_rfl

/-- `run` computes, for both parallelization modes, exactly the sequential
in-order per-token resolution (first thrown fault propagating). -/
theorem run_eq_seqMap (cores : Nat) (fetcher : Fetcher) (parsers : List Parser)
    (tokens : List Token) (parallelize : Bool) (sel : Option SelectorFn) :
    run cores fetcher parsers tokens parallelize sel
      = seqMap (fun t => fetch_token_metadata fetcher parsers sel t) tokens := by
  unfold run
  by_cases h : tokens.length = 0
  · have : tokens = [] := List.eq_nil_of_length_eq_zero h
    subst this
    simp [seqMap]
  · rw [if_neg h]
    cases parallelize with
    | true =>
      simp only [if_pos rfl]
      exact batched_parmap_eq_seqMap cores _ tokens 15 (by omega)
    | false => rfl

/-! ## Lemmas about the interpreter loop -/

theorem applicableIdxsFrom_mem_lt (tok : Token) (raw : RawContent) :
    ∀ (ps : List Parser) (idx j : Nat),
      j ∈ applicableIdxsFrom tok raw ps idx → j < idx + ps.length := by
  intro ps
  induction ps with
  | nil => intro idx j h; exact absurd h (by simp [applicableIdxsFrom])
  | cons p rest ih =>
    intro idx j h
    simp only [applicableIdxsFrom] at h
    by_cases hsp : p.should_parse_token tok raw
    · rw [if_pos hsp] at h
      rcases List.mem_cons.mp h with h | h
      · subst h; simp
      · have := ih (idx + 1) j h
        simp only [List.length_cons]
        omega
    · rw [if_neg hsp] at h
      have := ih (idx + 1) j h
      simp only [List.length_cons]
      omega

/-- With a selector configured (`selSome = true`) the loop never
short-circuits: it visits every parser, appends one candidate per applicable
parser in chain order, and its trace is exactly one parse event per
applicable parser. -/
theorem interpretLoopT_selSome (tok : Token) (raw : RawContent) :
    ∀ (ps : List Parser) (acc : List Outcome) (idx : Nat),
      interpretLoopT tok raw true ps acc idx
        = (.inr (acc ++ candidatesOf ps tok raw),
           (applicableIdxsFrom tok raw ps idx).map (fun i => Ev.parseEv i raw)) := by
  intro ps
  induction ps with
  | nil =>
    intro acc idx
    simp [interpretLoopT, candidatesOf, applicableIdxsFrom]
  | cons p rest ih =>
    intro acc idx
    by_cases hsp : p.should_parse_token tok raw
    · cases hpm : p.parse_metadata tok raw with
      | ok m =>
        simp [interpretLoopT, hsp, hpm, ih, candidatesOf, candidateOf,
          applicableIdxsFrom, List.filter_cons, List.append_assoc]
      | error e =>
        simp [interpretLoopT, hsp, hpm, ih, candidatesOf, candidateOf,
          applicableIdxsFrom, List.filter_cons, List.append_assoc]
    · simp [interpretLoopT, hsp, ih, candidatesOf, applicableIdxsFrom,
        List.filter_cons]

/-- With no selector (`selSome = false`), a prefix of the chain in which every
applicable parser raises never short-circuits: the loop records one failure
candidate per applicable prefix parser and then continues into the rest of
the chain with the accumulated candidates. -/
theorem interpretLoopT_skipFail (tok : Token) (raw : RawContent) :
    ∀ (ps1 : List Parser),
      (∀ q ∈ ps1, q.should_parse_token tok raw = true →
        ∃ e, q.parse_metadata tok raw = .error e) →
      ∀ (tail : List Parser) (acc : List Outcome) (idx : Nat),
        interpretLoopT tok raw false (ps1 ++ tail) acc idx
          = ((interpretLoopT tok raw false tail
                (acc ++ candidatesOf ps1 tok raw) (idx + ps1.length)).1,
             ((applicableIdxsFrom tok raw ps1 idx).map (fun i => Ev.parseEv i raw))
               ++ (interpretLoopT tok raw false tail
                    (acc ++ candidatesOf ps1 tok raw) (idx + ps1.length)).2) := by
  intro ps1
  induction ps1 with
  | nil =>
    intro _ tail acc idx
    simp [candidatesOf, applicableIdxsFrom]
  | cons p rest ih =>
    intro hfail tail acc idx
    have hp := hfail p (List.mem_cons_self p rest)
    have hrest : ∀ q ∈ rest, q.should_parse_token tok raw = true →
        ∃ e, q.parse_metadata tok raw = .error e :=
      fun q hq => hfail q (List.mem_cons_of_mem p hq)
    have hidx : idx + 1 + rest.length = idx + (rest.length + 1) := by omega
    by_cases hsp : p.should_parse_token tok raw
    · obtain ⟨e, he⟩ := hp hsp
      simp [interpretLoopT, hsp, he, ih hrest, candidatesOf, candidateOf,
        applicableIdxsFrom, List.filter_cons, List.append_assoc, hidx]
    · simp [interpretLoopT, hsp, ih hrest, candidatesOf, applicableIdxsFrom,
        List.filter_cons, hidx]

/-- Every event the loop records is a parse event carrying the raw content
the loop was given. -/
theorem interpretLoopT_trace_parse (tok : Token) (raw : RawContent) (b : Bool) :
    ∀ (ps : List Parser) (acc : List Outcome) (idx : Nat) (ev : Ev),
      ev ∈ (interpretLoopT tok raw b ps acc idx).2 → ∃ j, ev = Ev.parseEv j raw := by
  intro ps
  induction ps with
  | nil => intro acc idx ev h; exact absurd h (by simp [interpretLoopT])
  | cons p rest ih =>
    intro acc idx ev h
    simp only [interpretLoopT] at h
    by_cases hsp : p.should_parse_token tok raw
    · rw [if_pos hsp] at h
      cases hpm : p.parse_metadata tok raw with
      | ok m =>
        rw [hpm] at h
        cases b with
        | true =>
          simp only [if_pos] at h
          rcases List.mem_cons.mp h with h | h
          · exact ⟨idx, h⟩
          · exact ih _ _ ev h
        | false =>
          simp only [Bool.false_eq_true, if_false, List.mem_singleton] at h
          exact ⟨idx, h⟩
      | error e =>
        rw [hpm] at h
        rcases List.mem_cons.mp h with h | h
        · exact ⟨idx, h⟩
        · exact ih _ _ ev h
    · rw [if_neg hsp] at h
      exact ih _ _ ev h

/-- Whatever the interpreter chain and selector do, the trace of one
`fetch_token_metadata` call after a successful fetch is the fetch event
followed by the interpreter loop's events. -/
theorem fetch_token_metadataT_trace (fetcher : Fetcher) (parsers : List Parser)
    (sel : Option SelectorFn) (tok : Token) (raw : RawContent)
    (hf : fetcher.fetch_content tok.uri = .ok raw) :
    (fetch_token_metadataT fetcher parsers sel tok).2
      = Ev.fetchEv tok.uri :: (interpretLoopT tok raw sel.isSome parsers [] 0).2 := by
  simp only [fetch_token_metadataT, hf]
  cases h1 : (interpretLoopT tok raw sel.isSome parsers [] 0).1 with
  | inl out => simp [h1]
  | inr possible =>
    cases sel with
    | some s => simp [h1]
    | none =>
      cases possible with
      | nil => simp [h1]
      | cons x xs => simp [h1]

/-! ## The claims -/

/-- C1, counterexample to the claim as stated: for a token whose content
retrieval fails, the pipeline does **not** emit a retrieval-failure
`ProcessingError` value — the fetch exception is a thrown fault
(`Except.error`, not `Except.ok (Outcome.error _)`), and it propagates out of
`run`, aborting the batch. -/
theorem C1_counterexample :
    fetch_token_metadata badFetcher [parserOkA] none tokA
      = .error (Exn.err "connection refused") ∧
    run 2 badFetcher [parserOkA] [tokA] true none
      = .error (Exn.err "connection refused") :=
  ⟨by decide, by decide⟩

/-- C1 (amended): for every token whose content retrieval fails, the fetch
exception propagates as an uncaught thrown fault: no interpreter is attempted
(the call's trace is the single fetch event), no `ProcessingError` value is
produced for the token, and the fault aborts the batch, propagating out of
`run` (shown with the failing token in front of the batch, in either
parallelization mode). -/
theorem C1_retrieval_fault_propagates (cores : Nat) (fetcher : Fetcher)
    (parsers : List Parser) (sel : Option SelectorFn) (tok : Token)
    (rest : List Token) (par : Bool) (e : Exn)
    (hf : fetcher.fetch_content tok.uri = .error e) :
    fetch_token_metadataT fetcher parsers sel tok
      = (.error e, [Ev.fetchEv tok.uri]) ∧
    run cores fetcher parsers (tok :: rest) par sel = .error e := by
  have h1 : fetch_token_metadataT fetcher parsers sel tok
      = (.error e, [Ev.fetchEv tok.uri]) := by
    unfold fetch_token_metadataT
    rw [hf]
  refine ⟨h1, ?_⟩
  rw [run_eq_seqMap]
  simp [seqMap, fetch_token_metadata, h1]

/-- C1 witness: the amended theorem at a concrete failing fetcher. -/
theorem C1_witness :
    fetch_token_metadataT badFetcher [parserOkA] none tokA
      = (.error (Exn.err "connection refused"), [Ev.fetchEv tokA.uri]) ∧
    run 2 badFetcher [parserOkA] [tokA] true none
      = .error (Exn.err "connection refused") :=
  C1_retrieval_fault_propagates 2 badFetcher [parserOkA] none tokA [] true
    (Exn.err "connection refused") rfl

/-- C2, counterexample to the claim as stated: on a 1-token input whose
retrieval raises, `run` does not return a list of outcomes at all (in either
parallelization mode), so it does not return exactly N outcomes for every
N-token input. -/
theorem C2_counterexample :
    (run 2 badFetcher [parserOkA] [tokB] true none).isOk = false ∧
    (run 2 badFetcher [parserOkA] [tokB] false none).isOk = false :=
  ⟨by decide, by decide⟩

/-- C2 (amended): for every input list of N tokens and both
`parallelize = true` and `parallelize = false`, whenever the per-token
resolution returns an outcome (does not raise) for each input token, `run`
returns exactly those N outcomes, the i-th computed from the i-th input token
(same length, same order); if some per-token resolution raises, `run`
propagates that fault instead of returning a list. -/
theorem C2_run_length_order (cores : Nat) (fetcher : Fetcher)
    (parsers : List Parser) (sel : Option SelectorFn) (tokens : List Token)
    (par : Bool) (outs : List Outcome)
    (h : seqMap (fun t => fetch_token_metadata fetcher parsers sel t) tokens
      = .ok outs) :
    run cores fetcher parsers tokens par sel = .ok outs ∧
    outs.length = tokens.length ∧
    ∀ (i : Nat) (h1 : i < tokens.length) (h2 : i < outs.length),
      fetch_token_metadata fetcher parsers sel (tokens.get ⟨i, h1⟩)
        = .ok (outs.get ⟨i, h2⟩) := by
  refine ⟨?_, seqMap_ok_length _ tokens outs h, seqMap_ok_get _ tokens outs h⟩
  rw [run_eq_seqMap]
  exact h

/-- C2 witness: a concrete 2-token batch resolved in both modes. -/
theorem C2_witness :
    run 2 goodFetcher [parserOkA] [tokA, tokB] true none
      = .ok [Outcome.metadata mA, Outcome.metadata mA] ∧
    run 2 goodFetcher [parserOkA] [tokA, tokB] false none
      = .ok [Outcome.metadata mA, Outcome.metadata mA] :=
  ⟨(C2_run_length_order 2 goodFetcher [parserOkA] none [tokA, tokB] true
      [Outcome.metadata mA, Outcome.metadata mA] (by decide)).1,
   (C2_run_length_order 2 goodFetcher [parserOkA] none [tokA, tokB] false
      [Outcome.metadata mA, Outcome.metadata mA] (by decide)).1⟩

/-- C3, counterexample to the claim as stated: the declared default batch size
of `batched_parmap` is 10, not 15 — under the default an 11-item input is
split into two batches, where batch size 15 would give a single batch. -/
theorem C3_counterexample :
    batched_parmap_default_batch_size ≠ 15 ∧
    pyBatches (List.range 11) batched_parmap_default_batch_size.toNat
      ≠ [List.range 11] ∧
    pyBatches (List.range 11) 15 = [List.range 11] :=
  ⟨by decide, by decide, by decide⟩

/-- C3 (amended): for every positive batch size, `batched_parmap` partitions
its input into contiguous batches of at most `batch_size` (the batches
concatenate back to the input), processes the batches sequentially in order
and concatenates the per-batch results in order (for a non-raising `fn` the
result is exactly the in-order map); its declared default batch size is 10
(the pipeline's `run` passes 15 explicitly). -/
theorem C3_batched_partition {α : Type u} {β : Type v} (cores : Nat)
    (g : α → β) (args : List α) (bs : Int) (hbs : 1 ≤ bs) :
    batched_parmap_default_batch_size = 10 ∧
    (pyBatches args bs.toNat).flatten = args ∧
    (∀ b ∈ pyBatches args bs.toNat, b.length ≤ bs.toNat) ∧
    batched_parmap cores (fun a => Except.ok (g a)) args bs
      = .ok (args.map g) := by
  refine ⟨rfl, pyBatches_flatten bs.toNat (by omega) args.length args le_rfl, ?_, ?_⟩
  · intro b hb
    obtain ⟨i, _, rfl⟩ := List.mem_map.mp hb
    calc ((args.drop i).take bs.toNat).length ≤ min bs.toNat (args.drop i).length := by
          rw [List.length_take]
      _ ≤ bs.toNat := Nat.min_le_left _ _
  · rw [batched_parmap_eq_seqMap cores _ args bs hbs, seqMap_pure]

/-- C3 witness: batch size 2 over five items. -/
theorem C3_witness :
    batched_parmap 2 (fun n => Except.ok (n * 2)) [1, 2, 3, 4, 5] 2
      = .ok [2, 4, 6, 8, 10] := by
  simpa using
    (C3_batched_partition 2 (fun n => n * 2) [1, 2, 3, 4, 5] 2 (by decide)).2.2.2

/-- C4: for every function `fn` and every non-empty list of items, `parmap`
returns exactly `[fn items[0], fn items[1], ...]` in input order.  In the
embedding each scheduled closure is `fun _ => fn i` with its own argument `i`
bound by value at construction time (the `map`-generated closures of the
source), so no invocation observes another item's argument. -/
theorem C4_parmap_no_capture {α : Type u} {β : Type v} (cores : Nat)
    (fn : α → β) (items : List α) (h : items ≠ []) :
    parmap cores (fun a => Except.ok (fn a)) items = .ok (items.map fn) := by
  rw [parmap_eq_seqMap cores _ items h, seqMap_pure]

/-- C4 witness. -/
theorem C4_witness :
    parmap 2 (fun n => Except.ok (n + 1)) [10, 20, 30] = .ok [11, 21, 31] := by
  simpa using C4_parmap_no_capture 2 (fun n => n + 1) [10, 20, 30] (by decide)

/-- C5: with no selection policy, if the interpreter loop reaches an
applicable parser `p` (every earlier parser either did not claim
applicability or raised) and `p`'s interpretation succeeds, that Metadata is
the token's outcome and no later interpreter in the chain is invoked (every
parse event of the call is at chain position at most `ps1.length`, the
position of `p`); and when an applicable parser raises, the error is recorded
as a candidate (appended to the accumulator with the causing fault) and the
loop continues with the remaining chain. -/
theorem C5_short_circuit (fetcher : Fetcher) (ps1 ps2 : List Parser)
    (p : Parser) (tok : Token) (raw : RawContent)
    (hf : fetcher.fetch_content tok.uri = .ok raw)
    (hskip : ∀ q ∈ ps1, q.should_parse_token tok raw = true →
      ∃ e, q.parse_metadata tok raw = .error e)
    (happ : p.should_parse_token tok raw = true) :
    (∀ m, p.parse_metadata tok raw = .ok m →
      fetch_token_metadata fetcher (ps1 ++ p :: ps2) none tok
        = .ok (Outcome.metadata m) ∧
      (∀ j r, Ev.parseEv j r ∈ (fetch_token_metadataT fetcher (ps1 ++ p :: ps2) none tok).2 →
        j ≤ ps1.length)) ∧
    (∀ e acc idx, p.parse_metadata tok raw = .error e →
      interpretLoopT tok raw false (p :: ps2) acc idx
        = ((interpretLoopT tok raw false ps2
              (acc ++ [Outcome.error (MetadataProcessingError.from_token_and_error tok e)])
              (idx + 1)).1,
           Ev.parseEv idx raw
             :: (interpretLoopT tok raw false ps2
                  (acc ++ [Outcome.error (MetadataProcessingError.from_token_and_error tok e)])
                  (idx + 1)).2)) := by
  constructor
  · intro m hm
    have hstep : interpretLoopT tok raw false (p :: ps2)
        (candidatesOf ps1 tok raw) (0 + ps1.length)
        = (Sum.inl (Outcome.metadata m), [Ev.parseEv (0 + ps1.length) raw]) := by
      simp [interpretLoopT, happ, hm]
    have hr : interpretLoopT tok raw false (ps1 ++ p :: ps2) [] 0
        = (Sum.inl (Outcome.metadata m),
           ((applicableIdxsFrom tok raw ps1 0).map (fun i => Ev.parseEv i raw))
             ++ [Ev.parseEv (0 + ps1.length) raw]) := by
      rw [interpretLoopT_skipFail tok raw ps1 hskip (p :: ps2) [] 0]
      simp only [List.nil_append]
      rw [hstep]
    constructor
    · simp [fetch_token_metadata, fetch_token_metadataT, hf, hr]
    · intro j r hmem
      rw [fetch_token_metadataT_trace fetcher _ none tok raw hf] at hmem
      simp only [Option.isSome_none] at hmem
      rw [hr] at hmem
      rcases List.mem_cons.mp hmem with hmem | hmem
      · cases hmem
      · rcases List.mem_append.mp hmem with hmem | hmem
        · obtain ⟨i, hi, heq⟩ := List.mem_map.mp hmem
          have hlt := applicableIdxsFrom_mem_lt tok raw ps1 0 i hi
          injection heq with h1 h2
          omega
        · rcases List.mem_singleton.mp hmem with heq
          injection heq with h1 h2
          omega
  · intro e acc idx he
    simp [interpretLoopT, happ, he]

/-- C5 witness: chain = [not applicable, applicable-but-raising, succeeds,
would-also-succeed]; outcome is the first success. -/
theorem C5_witness :
    fetch_token_metadata goodFetcher
      [parserNever, parserFails, parserOkA, parserOkB] none tokA
      = .ok (Outcome.metadata mA) := by
  have hskip : ∀ q ∈ [parserNever, parserFails],
      q.should_parse_token tokA rawA = true →
      ∃ e, q.parse_metadata tokA rawA = .error e := by
    intro q hq hs
    rcases List.mem_cons.mp hq with rfl | hq
    · exact absurd hs (by decide)
    · rcases List.mem_cons.mp hq with rfl | hq
      · exact ⟨Exn.err "bad json", rfl⟩
      · exact absurd hq (by simp)
  exact ((C5_short_circuit goodFetcher [parserNever, parserFails] [parserOkB]
    parserOkA tokA rawA rfl hskip rfl).1 mA rfl).1

/-- C6: with a selection policy configured, every applicable interpreter in
the chain is invoked exactly once in chain order regardless of earlier
successes (the call's trace is the fetch event followed by exactly one parse
event per applicable parser), and — provided at least one parser was
applicable, so the candidate list is the parsers' own — the token's outcome
is the value the selection policy returns on the full candidate list. -/
theorem C6_exhaustive_candidates (fetcher : Fetcher) (parsers : List Parser)
    (sel : SelectorFn) (tok : Token) (raw : RawContent)
    (hf : fetcher.fetch_content tok.uri = .ok raw)
    (hne : candidatesOf parsers tok raw ≠ []) :
    fetch_token_metadata fetcher parsers (some sel) tok
      = sel (candidatesOf parsers tok raw) ∧
    (fetch_token_metadataT fetcher parsers (some sel) tok).2
      = Ev.fetchEv tok.uri
          :: (applicableIdxs parsers tok raw).map (fun i => Ev.parseEv i raw) := by
  have hr := interpretLoopT_selSome tok raw parsers [] 0
  have hlen : (candidatesOf parsers tok raw).length ≠ 0 := by
    simpa [List.length_eq_zero] using hne
  constructor
  · simp [fetch_token_metadata, fetch_token_metadataT, hf, hr, hlen, applicableIdxs]
  · rw [fetch_token_metadataT_trace fetcher parsers (some sel) tok raw hf]
    simp [hr, applicableIdxs]

/-- C6 witness: all four parsers of the chain are consulted, the three
applicable ones each parsed exactly once, and the configured policy picks
from the full candidate list. -/
theorem C6_witness :
    fetch_token_metadata goodFetcher [parserOkA, parserNever, parserFails, parserOkB]
      (some selLast) tokA
      = selLast (candidatesOf [parserOkA, parserNever, parserFails, parserOkB] tokA rawA) ∧
    (fetch_token_metadataT goodFetcher [parserOkA, parserNever, parserFails, parserOkB]
      (some selLast) tokA).2
      = [Ev.fetchEv tokA.uri, Ev.parseEv 0 rawA, Ev.parseEv 2 rawA, Ev.parseEv 3 rawA] := by
  have h := C6_exhaustive_candidates goodFetcher
    [parserOkA, parserNever, parserFails, parserOkB] selLast tokA rawA rfl (by decide)
  refine ⟨h.1, ?_⟩
  rw [h.2]
  decide

/-- C7: with no selection policy and no successful interpretation — if zero
parsers claimed applicability the outcome is the single
`ProcessingError` built from `Exception("No parsers found.")` (the code's
no-applicable-interpreter signal), and if the chain produced only failure
candidates the outcome is the first recorded candidate in chain order. -/
theorem C7_default_selection (fetcher : Fetcher) (parsers : List Parser)
    (tok : Token) (raw : RawContent)
    (hf : fetcher.fetch_content tok.uri = .ok raw) :
    ((∀ p ∈ parsers, p.should_parse_token tok raw = false) →
      fetch_token_metadata fetcher parsers none tok
        = .ok (Outcome.error (MetadataProcessingError.from_token_and_error tok
            (Exn.err "No parsers found.")))) ∧
    (∀ o os, (∀ p ∈ parsers, p.should_parse_token tok raw = true →
        ∃ e, p.parse_metadata tok raw = .error e) →
      candidatesOf parsers tok raw = o :: os →
      fetch_token_metadata fetcher parsers none tok = .ok o) := by
  have hbase : (∀ p ∈ parsers, p.should_parse_token tok raw = true →
      ∃ e, p.parse_metadata tok raw = .error e) →
      interpretLoopT tok raw false parsers [] 0
        = (.inr (candidatesOf parsers tok raw),
           (applicableIdxs parsers tok raw).map (fun i => Ev.parseEv i raw)) := by
    intro hfail
    have h := interpretLoopT_skipFail tok raw parsers hfail [] [] 0
    rw [List.append_nil] at h
    simpa [interpretLoopT, applicableIdxs] using h
  constructor
  · intro hnone
    have hloop := hbase (by intro p hp hs; rw [hnone p hp] at hs; cases hs)
    have hcand : candidatesOf parsers tok raw = [] := by
      have : parsers.filter (fun p => p.should_parse_token tok raw) = [] :=
        List.filter_eq_nil_iff.mpr (by intro p hp; simp [hnone p hp])
      simp [candidatesOf, this]
    rw [hcand] at hloop
    simp [fetch_token_metadata, fetch_token_metadataT, hf, hloop]
  · intro o os hfail hcands
    have hloop := hbase hfail
    rw [hcands] at hloop
    simp [fetch_token_metadata, fetch_token_metadataT, hf, hloop]

/-- C7 witness: the no-applicable-parser default on a one-parser chain, and
the first failure candidate on a chain whose applicable parsers all raise. -/
theorem C7_witness :
    fetch_token_metadata goodFetcher [parserNever] none tokA
      = .ok (Outcome.error { token := tokA, cause := Exn.err "No parsers found." }) ∧
    fetch_token_metadata goodFetcher [parserNever, parserFails, parserFails] none tokA
      = .ok (Outcome.error { token := tokA, cause := Exn.err "bad json" }) := by
  constructor
  · exact (C7_default_selection goodFetcher [parserNever] tokA rawA rfl).1 (by decide)
  · refine (C7_default_selection goodFetcher [parserNever, parserFails, parserFails]
      tokA rawA rfl).2
      (Outcome.error { token := tokA, cause := Exn.err "bad json" })
      [Outcome.error { token := tokA, cause := Exn.err "bad json" }] ?_ (by decide)
    intro p hp hs
    rcases List.mem_cons.mp hp with rfl | hp
    · exact absurd hs (by decide)
    · rcases List.mem_cons.mp hp with rfl | hp
      · exact ⟨Exn.err "bad json", rfl⟩
      · rcases List.mem_cons.mp hp with rfl | hp
        · exact ⟨Exn.err "bad json", rfl⟩
        · exact absurd hp (by simp)

/-- C8: within one `fetch_token_metadata` call the content retriever's fetch
is invoked exactly once (the trace's fetch events are exactly one, for the
token's URI), no matter how many interpreters are consulted or fail; and
every interpreter invocation receives the very RawContent that single fetch
returned, so there is no re-fetch on interpreter retry. -/
theorem C8_fetch_once (fetcher : Fetcher) (parsers : List Parser)
    (sel : Option SelectorFn) (tok : Token) :
    (fetch_token_metadataT fetcher parsers sel tok).2.filter isFetchEv
      = [Ev.fetchEv tok.uri] ∧
    (∀ j r, Ev.parseEv j r ∈ (fetch_token_metadataT fetcher parsers sel tok).2 →
      fetcher.fetch_content tok.uri = .ok r) := by
  cases hf : fetcher.fetch_content tok.uri with
  | error e =>
    have hT : fetch_token_metadataT fetcher parsers sel tok
        = (.error e, [Ev.fetchEv tok.uri]) := by
      unfold fetch_token_metadataT
      rw [hf]
    rw [hT]
    refine ⟨by simp [List.filter, isFetchEv], ?_⟩
    intro j r h
    rcases List.mem_singleton.mp h with heq
    cases heq
  | ok raw =>
    have htr := fetch_token_metadataT_trace fetcher parsers sel tok raw hf
    rw [htr]
    constructor
    · have hnil : (interpretLoopT tok raw sel.isSome parsers [] 0).2.filter isFetchEv = [] := by
        apply List.filter_eq_nil_iff.mpr
        intro ev hev
        obtain ⟨j, rfl⟩ := interpretLoopT_trace_parse tok raw sel.isSome parsers [] 0 ev hev
        simp [isParseEv, isFetchEv]
      simp [List.filter_cons, isFetchEv, hnil]
    · intro j r h
      rcases List.mem_cons.mp h with heq | h
      · cases heq
      · obtain ⟨j', heq⟩ :=
          interpretLoopT_trace_parse tok raw sel.isSome parsers [] 0 (Ev.parseEv j r) h
        injection heq with h1 h2
        subst h2
        rfl

/-- C8 witness: a chain with a skipped parser and one parse; one fetch event,
and the parse at position 1 received the fetched raw content. -/
theorem C8_witness :
    (fetch_token_metadataT goodFetcher [parserNever, parserOkA] none tokA).2.filter isFetchEv
      = [Ev.fetchEv tokA.uri] ∧
    goodFetcher.fetch_content tokA.uri = .ok rawA :=
  ⟨(C8_fetch_once goodFetcher [parserNever, parserOkA] none tokA).1,
   (C8_fetch_once goodFetcher [parserNever, parserOkA] none tokA).2 1 rawA (by decide)⟩

/-- C9: `parmap` on the empty list raises the pool's `ValueError`
(`min(0, MAX_PROCS) = 0` workers is rejected) instead of returning `[]`;
`batched_parmap` on the empty list (any non-zero batch size) returns `[]`
visiting no batch at all; and `run` guards the empty token list and returns
`[]` in either mode — so `parmap`'s map contract only holds for non-empty
inputs. -/
theorem C9_empty_inputs {α : Type u} {β : Type v} (cores : Nat)
    (fn : α → Except Exn β) (bs : Int) (hbs : bs ≠ 0) (fetcher : Fetcher)
    (parsers : List Parser) (sel : Option SelectorFn) (par : Bool) :
    parmap cores fn ([] : List α) = .error Exn.valueErrorMaxWorkers ∧
    batched_parmap cores fn ([] : List α) bs = .ok [] ∧
    pyBatchesI ([] : List α) bs = [] ∧
    run cores fetcher parsers [] par sel = .ok [] := by
  have hb : pyBatchesI ([] : List α) bs = [] := by
    unfold pyBatchesI
    by_cases hneg : bs < 0
    · rw [if_pos hneg]
    · rw [if_neg hneg]
      exact pyBatches_nil _
  refine ⟨?_, ?_, hb, ?_⟩
  · simp [parmap, parallelize_with_threads]
  · unfold batched_parmap
    rw [if_neg hbs, hb]
    rfl
  · rw [run_eq_seqMap]
    rfl

/-- C9 witness. -/
theorem C9_witness :
    parmap 2 (fun n => Except.ok (n + 1)) ([] : List Nat)
      = .error Exn.valueErrorMaxWorkers ∧
    batched_parmap 2 (fun n => Except.ok (n + 1)) ([] : List Nat) 15 = .ok [] ∧
    run 2 goodFetcher [parserOkA] [] true none = .ok [] := by
  have h := C9_empty_inputs 2 (fun n => Except.ok (n + 1)) 15 (by decide)
    goodFetcher [parserOkA] none true
  exact ⟨h.1, h.2.1, h.2.2.2⟩

/-- C10: `batched_parmap` preserves input length only for `batch_size ≥ 1`:
for every negative batch size it returns `[]` (the loop's range is empty, so
every item is silently dropped), for batch size 0 the range step raises a
`ValueError`, and for every positive batch size a non-raising `fn` yields the
full in-order map. -/
theorem C10_batch_size_guard {α : Type u} {β : Type v} (cores : Nat)
    (fn : α → Except Exn β) (g : α → β) (args : List α) (bs : Int) :
    (bs < 0 → batched_parmap cores fn args bs = .ok []) ∧
    batched_parmap cores fn args 0 = .error Exn.valueErrorRangeStep ∧
    (1 ≤ bs → batched_parmap cores (fun a => Except.ok (g a)) args bs
      = .ok (args.map g)) := by
  refine ⟨?_, rfl, ?_⟩
  · intro hneg
    unfold batched_parmap pyBatchesI
    rw [if_neg (by omega), if_pos hneg]
    rfl
  · intro hpos
    rw [batched_parmap_eq_seqMap cores _ args bs hpos, seqMap_pure]

/-- C10 witness: three items dropped entirely at batch size −4, a raise at 0,
and the full map at 2. -/
theorem C10_witness :
    batched_parmap 2 (fun n => Except.ok (n + 1)) [1, 2, 3] (-4) = .ok [] ∧
    batched_parmap 2 (fun n => Except.ok (n + 1)) [1, 2, 3] 0
      = .error Exn.valueErrorRangeStep ∧
    batched_parmap 2 (fun n => Except.ok (n + 1)) [1, 2, 3] 2 = .ok [2, 3, 4] :=
  ⟨(C10_batch_size_guard 2 (fun n => Except.ok (n + 1)) (fun n => n + 1)
      [1, 2, 3] (-4)).1 (by decide),
   (C10_batch_size_guard 2 (fun n => Except.ok (n + 1)) (fun n => n + 1)
      [1, 2, 3] (-4)).2.1,
   by simpa using (C10_batch_size_guard 2 (fun n => Except.ok (n + 1))
      (fun n => n + 1) [1, 2, 3] 2).2.2 (by decide)⟩

end Offchain
